import Mathlib

/-!
Verification of the SOL path-selection core (path selection strategies
module) against its natural-language specification.

The module operates on boolean path masks per traffic class (entry `1` =
masked / hidden, `0` = visible / selected).  We shallowly embed the mask
manipulating kernels as Lean functions over `List Bool`, numeric scoring
over `ℚ`, and the solver-driving selectors as functions parameterised by
oracles for the external solver and the random number generator.
-/

namespace Sol

/-- Errors raised by the path-selection module.  `valueError`,
`invalidConfig` (the `InvalidConfigException` of the error taxonomy),
`solException` and `typeError` mirror the Python exception classes;
`unboundLocal` models a Python `UnboundLocalError` / `NameError` raised
when a local variable is referenced before assignment. -/
inductive PyErr where
  | valueError (msg : String)
  | invalidConfig (msg : String)
  | solException (msg : String)
  | typeError (msg : String)
  | unboundLocal (var : String)
  deriving DecidableEq, Repr

/-! ### `_saprob`: simulated-annealing acceptance probability

Source: `cdef inline double _saprob(oldo, newo, temp): return 1 if oldo <= newo else 0`.
The Metropolis form is commented out in the source; the temperature
argument is ignored. -/

/-- Embedding of `_saprob(oldo, newo, temp)`. -/
def saprob (oldo newo _temp : ℚ) : ℚ :=
  if oldo ≤ newo then 1 else 0

/-! ### `select_ilp`: solver-call trace

`select_ilp` composes the applications, imposes the global path cap via
`opt.cap_num_paths((topo.num_nodes() - 1) ** 2 * num_paths)` and then
calls `opt.solve()`.  We record the sequence of operations performed on
the external `opt` object as an event trace. -/

/-- Operations `select_ilp` performs on the external optimization object. -/
inductive OptEvent where
  | compose
  | capNumPaths (cap : ℤ)
  | solve
  | getChosenPaths
  deriving DecidableEq, Repr

/-- Trace of solver operations performed by `select_ilp` for a topology
with `num_nodes` nodes and the `num_paths` parameter, in source order:
`compose_apps`, `cap_num_paths((num_nodes - 1) ** 2 * num_paths)`,
`solve`, `get_chosen_paths`. -/
def select_ilp_events (num_nodes num_paths : ℕ) : List OptEvent :=
  [OptEvent.compose,
   OptEvent.capNumPaths (((num_nodes : ℤ) - 1) ^ 2 * num_paths),
   OptEvent.solve,
   OptEvent.getChosenPaths]

/-! ### `cluster_tcs`: clustering method dispatch

The clustering math itself is delegated to the external sklearn
estimators; the module's own logic is the dispatch on `method`, whose
fall-through branch is `raise ValueError('Unsupported clustering method %s' % method)`. -/

/-- Error outcome of `cluster_tcs(tcs, num_clusters, method)` as a
function of the `method` string: `none` when the method is recognised
(`'kmeans'` or `'agg'`), otherwise the raised exception. -/
def cluster_tcs_err (method : String) : Option PyErr :=
  if method = "kmeans" then none
  else if method = "agg" then none
  else some (PyErr.valueError ("Unsupported clustering method " ++ method))

/-! ### `select_iterative`

The loop guard is `i < max_iter and diff > epsilon and k < mp` with
`i = 0`, `diff = 1 << 10`, `k = 5` initially and `mp = all_pptc.max_paths(all=True)`.
The local variable `opt` is assigned only inside the loop body; after
the loop the code evaluates `opt.is_solved()`.  We model the solver by
an oracle mapping the iteration number to `some objective` (solved) or
`none` (unsolved), and the `opt` local by an `Option (Option ℚ)`:
`none` when never assigned, `some st` when holding an optimization whose
solved state is `st`. -/

/-- Sorting mode argument of `select_iterative` (`sort_mode`). -/
inductive SortMode where
  | len
  | resource
  | other (s : String)
  deriving DecidableEq, Repr

/-- One-loop state step of `select_iterative`, fuelled by the remaining
number of permitted iterations (the guard `i < max_iter` bounds the
iteration count by `max_iter`, so fuel `max_iter.toNat` is exact).
Arguments: fuel, `i`, `diff`, `old_val`, `k`, current `opt` binding. -/
def iter_loop (solver : ℕ → Option ℚ) (max_iter : ℤ) (epsilon : ℚ) (mp : ℕ) :
    ℕ → ℤ → ℚ → ℚ → ℕ → Option (Option ℚ) → Option (Option ℚ)
  | 0, _, _, _, _, opt => opt
  | fuel + 1, i, diff, old_val, k, opt =>
    if i < max_iter ∧ epsilon < diff ∧ k < mp then
      match solver i.toNat with
      | some obj =>
          iter_loop solver max_iter epsilon mp fuel (i + 1) (obj - old_val) obj
            (k * 2) (some (some obj))
      | none =>
          iter_loop solver max_iter epsilon mp fuel (i + 1) diff old_val
            (k * 2) (some none)
    else opt

/-- Embedding of `select_iterative`: after dispatching on `sort_mode`
(unknown modes raise `InvalidConfigException` before the loop), run the
iteration loop starting from `i = 0`, `diff = 1 << 10 = 1024`,
`old_val = 0`, `k = 5`, with `opt` unassigned; afterwards reference
`opt`, raising `UnboundLocalError` when it was never assigned, raise
`SOLException('No solution exists')` when the last optimization is
unsolved, and return the solved objective otherwise. -/
def select_iterative_run (sort_mode : SortMode) (max_iter : ℤ) (epsilon : ℚ)
    (mp : ℕ) (solver : ℕ → Option ℚ) : Except PyErr ℚ :=
  match sort_mode with
  | SortMode.other s =>
      Except.error (PyErr.invalidConfig ("Unknown mode for path sorting: " ++ s))
  | _ =>
    match iter_loop solver max_iter epsilon mp max_iter.toNat 0 1024 0 5 none with
    | none => Except.error (PyErr.unboundLocal "opt")
    | some none => Except.error (PyErr.solException "No solution exists")
    | some (some obj) => Except.ok obj

/-! ### Mask primitives

Masks are numpy boolean arrays; we embed them as `List Bool`
(`true` = masked / `1`, `false` = visible / `0`).  Fancy assignment
`mask[ids] = v` becomes a fold of `List.set`. -/

/-- Embedding of the numpy fancy assignment `mask[ids] = v`. -/
def set_vals (mask : List Bool) (ids : List ℕ) (v : Bool) : List Bool :=
  ids.foldl (fun m j => m.set j v) mask

/-- Embedding of `_in(mask, explored)`: the source tests
`(bitwise_xor(mask, x) == 0).all()` for each `x` in `explored`, i.e.
element-wise XOR being all-zero. -/
def mask_in (mask : List Bool) (explored : List (List Bool)) : Bool :=
  explored.any (fun x => (List.zipWith xor mask x).all (fun b => b = false))

/-! ### `_replace`, mode `ReplaceMode.random`

Source:
```
comb = choice(unused, replace_len, replace=False)
mask[comb] = 0
while not _in(mask, explored) and num_tries < max_tries:
    mask[comb] = 1
    comb = choice(unused, replace_len, replace=0)
    mask[comb] = 0
    num_tries += 1
```
The random draws of `numpy.random.choice` are modelled by an oracle
`draws : ℕ → List ℕ` giving the combination drawn on the `t`-th call.
The fuel argument counts the remaining tries (`max_tries - num_tries`),
starting at `max_tries = 100`. -/

/-- The retry loop of `_replace` in `random` mode.  Arguments: remaining
tries, index of the next draw, current `comb`, current mask. -/
def rr_loop (explored : List (List Bool)) (draws : ℕ → List ℕ) :
    ℕ → ℕ → List ℕ → List Bool → List Bool
  | 0, _, _, mask => mask
  | fuel + 1, t, comb, mask =>
    if mask_in mask explored then mask
    else
      rr_loop explored draws fuel (t + 1) (draws t)
        (set_vals (set_vals mask comb true) (draws t) false)

/-- Embedding of `_replace(explored, mask, num_paths, mode=ReplaceMode.random)`
with the draw oracle `draws` (call `t` of `numpy.random.choice` returns
`draws t`; the initial draw is `draws 0`).  Mirrors the source:
`replace_len = max(0, num_paths - (mask == 0).sum())`; early return when
`replace_len <= 0`; `unused` are the masked indices; when there are
fewer unused than `replace_len` the whole mask is cleared; otherwise the
first combination is unmasked and the retry loop runs. -/
def replace_random (explored : List (List Bool)) (mask : List Bool)
    (num_paths : ℕ) (draws : ℕ → List ℕ) : List Bool :=
  let replace_len := num_paths - mask.count false
  if replace_len = 0 then mask
  else
    let unused := (List.range mask.length).filter (fun i => mask.getD i true = true)
    if unused.length < replace_len then List.replicate mask.length false
    else rr_loop explored draws 100 1 (draws 0) (set_vals mask (draws 0) false)

/-! ### Phase-0 resampling step of `select_sa`

Source (feasibility loop body, per traffic class):
```
newmask = _expel(tc.ID, explored[tc][-1], None, ExpelMode.all)
_replace(explored[tc], newmask, num_paths, replace_mode, tree=pathtrees[tc])
explored[tc].append(newmask)
```
`_expel` mutates `existing_mask` in place and returns it (`return
existing_mask`), so `newmask` *is* the array object `explored[tc][-1]`;
`_replace` mutates it further in place, and `append` then appends that
same object.  The Python list therefore ends with two references to one
array: its last slot (formerly the previous mask) now holds the
replaced mask, and the appended entry is the same value.  `newmask`
abstracts the value of the array after `_expel` + `_replace` ran (any
expel/replace mode, any draws). -/

/-- Value of `explored[tc]` after one phase-0 resampling step of
`select_sa`, given its previous value and the final value `newmask` of
the in-place-mutated last element. -/
def sa_phase0_step (explored : List (List Bool)) (newmask : List Bool) :
    List (List Bool) :=
  explored.dropLast ++ [newmask, newmask]

/-! ### `_expel`, mode `ExpelMode.no_flow`

Source:
```
ii = 0
for i, maskval in enumerate(existing_mask):
    if not maskval:
        if not any([x.x != 0 for x in xps[tcid, ii, :] if not isinstance(x, int)]):
            existing_mask[i] = 1
        ii += 1
```
Entries of the solver tensor `xps` are either integer literals
(constants, skipped by the `isinstance` filter) or decision variables
carrying a float `.x`; we embed them as a sum type. -/

/-- An entry of the solver tensor `xps`: an integer constant or a
decision variable with value `.x`. -/
inductive FlowVar where
  | const (z : ℤ)
  | decision (x : ℚ)
  deriving DecidableEq, Repr

/-- The no-flow test on one row `xps[tcid, ii, :]` of the tensor:
`not any([x.x != 0 for x in row if not isinstance(x, int)])`. -/
def noflow (row : List FlowVar) : Bool :=
  !(row.any fun fv =>
    match fv with
    | FlowVar.const _ => false
    | FlowVar.decision x => decide (x ≠ 0))

/-- The loop of `_expel` in `no_flow` mode: walk the mask, keeping
masked entries, and masking a visible entry exactly when the row of
`xps` at the running visible counter `ii` has no flow. -/
def expel_no_flow_go (xps : ℕ → List FlowVar) : ℕ → List Bool → List Bool
  | _, [] => []
  | ii, m :: rest =>
    if m then m :: expel_no_flow_go xps ii rest
    else noflow (xps ii) :: expel_no_flow_go xps (ii + 1) rest

/-- Embedding of `_expel(tcid, existing_mask, xps, ExpelMode.no_flow)`;
`xps ii` is the row `xps[tcid, ii, :]` over all epochs. -/
def expel_no_flow (xps : ℕ → List FlowVar) (mask : List Bool) : List Bool :=
  expel_no_flow_go xps 0 mask

/-- Number of visible (value `0`) entries strictly before index `i`:
the value of the running counter `ii` when the `no_flow` loop reaches
index `i`. -/
def vis_rank (mask : List Bool) (i : ℕ) : ℕ :=
  (mask.take i).count false

/-! ### `compute_score`

Source:
```
cdef compute_score(Path p, Topology t, weights, norm, d):
    cdef double score = 0
    for r in weights:
        score += max(t.get_resources(n).get(r, 0) for n in chain(p.nodes(), p.links())) / norm[r] * weights[r] - len(p) / d
    return score
```
Paths expose a node list and a link list; `t.get_resources(n)` maps a
node or a link to a resource dictionary with default `0` (we embed it
as a total function to `ℚ`).  `weights` is a dictionary iterated in
insertion order, embedded as an association list of
(resource, weight) pairs.  Real arithmetic is embedded as `ℚ`. -/

/-- A node or a link of the topology (the elements `chain(p.nodes(), p.links())`
ranges over). -/
abbrev NetElem := Sum ℕ (ℕ × ℕ)

/-- A path: ordered node sequence plus its links.  `len(p)` is the node
count. -/
structure Path where
  nodes : List ℕ
  links : List (ℕ × ℕ)

/-- The elements `chain(p.nodes(), p.links())` iterates over. -/
def Path.elems (p : Path) : List NetElem :=
  p.nodes.map Sum.inl ++ p.links.map Sum.inr

/-- `len(p)`: the node count of the path. -/
def Path.len (p : Path) : ℕ := p.nodes.length

/-- Topology as seen by `compute_score`: the per-element resource maps,
with `get(r, 0)` defaulting built in. -/
structure Topology where
  get_resources : NetElem → ℕ → ℚ

/-- Python's `max` over a non-empty sequence of rationals (the generator
in `compute_score` is non-empty for any real path). -/
def qmax : List ℚ → ℚ
  | [] => 0
  | x :: xs => xs.foldl max x

/-- The per-resource maximum `max(t.get_resources(n).get(r, 0) for n in chain(p.nodes(), p.links()))`. -/
def res_max (p : Path) (t : Topology) (r : ℕ) : ℚ :=
  qmax (p.elems.map (fun n => t.get_resources n r))

/-- Embedding of `compute_score(p, t, weights, norm, d)`.  Note the
source subtracts `len(p) / d` inside the loop over `weights`, i.e. once
per resource. -/
def compute_score (p : Path) (t : Topology) (weights : List (ℕ × ℚ))
    (norm : ℕ → ℚ) (d : ℚ) : ℚ :=
  weights.foldl
    (fun score rw =>
      score + res_max p t rw.1 / norm rw.1 * rw.2 - (p.len : ℚ) / d)
    0

/-- Modelled from the spec's formula (for the refinement comparison of
the resource score): `score(p) = Σ_r (max_{n ∈ p} t.resources(n).get(r,0) / N[r]) * W[r] − len(p)/d`,
with the length penalty subtracted exactly once, outside the sum. -/
def spec_score (p : Path) (t : Topology) (weights : List (ℕ × ℚ))
    (norm : ℕ → ℚ) (d : ℚ) : ℚ :=
  (weights.foldl (fun score rw => score + res_max p t rw.1 / norm rw.1 * rw.2) 0)
    - (p.len : ℚ) / d

/-! ### `k_shortest_paths`

Source (per traffic class):
```
lens = array([len(x) for x in pptc.all_paths(tc)])
ind = argsort(lens)
mask = ones(pptc.num_paths(tc, all=True), dtype=bool)
mask[ind[:min(num_paths, mask.size)]] = 0
pptc.mask(tc, mask)
```
The call is `argsort(lens)` with numpy's default `kind='quicksort'`,
which numpy documents as **not stable**: the only guarantee is that the
returned `ind` is a permutation of `range(n)` along which the keys are
non-decreasing; the relative order of equal keys is an implementation
detail.  We therefore model the argsort output as an oracle `ind`
constrained by that documented contract (the same treatment as the
`numpy.random.choice` oracle of `choose_rand`). -/

/-- The documented contract of `numpy.argsort(lens)` (default
`kind='quicksort'`): the result is a permutation of
`range lens.length` along which `lens` is non-decreasing.  Nothing is
guaranteed about the relative order of equal keys. -/
def is_argsort_of (lens ind : List ℕ) : Prop :=
  List.Perm ind (List.range lens.length) ∧
  List.Pairwise (fun i j => lens.getD i 0 ≤ lens.getD j 0) ind

/-- The mask produced by `k_shortest_paths` for one traffic class whose
candidate-path lengths are `lens`, given the index permutation `ind`
returned by `argsort(lens)`: start from all-ones and unmask the first
`min(num_paths, n)` entries of `ind`. -/
def k_shortest_mask (lens : List ℕ) (num_paths : ℕ) (ind : List ℕ) : List Bool :=
  set_vals (List.replicate lens.length true)
    (ind.take (min num_paths lens.length)) false

/-- Modelled from the claim's words (for the refinement comparison):
the strict "(length, original index)" order — shorter length first,
ties broken in favour of the smaller original index. -/
def lexLt (lens : List ℕ) (i j : ℕ) : Prop :=
  lens.getD i 0 < lens.getD j 0 ∨ (lens.getD i 0 = lens.getD j 0 ∧ i < j)

instance (lens : List ℕ) : DecidableRel (lexLt lens) := fun i j => by
  unfold lexLt
  infer_instance

/-- Modelled from the claim's words: the number of candidates strictly
preceding candidate `i` in the (length, original index) order; the
claim asserts `i` is visible iff `rank lens i < min k n`. -/
def rank (lens : List ℕ) (i : ℕ) : ℕ :=
  (List.range lens.length).countP (fun j => decide (lexLt lens j i))

/-! ### `choose_rand`

Source (per traffic class):
```
n = pptc.all_paths(tc).size
if n > num_paths:
    mask = ones(n)
    mask[choice(arange(n), num_paths, replace=False)] = 0
    pptc.mask(tc, mask)
else:
    pptc.unmask(tc)
```
The draw of `numpy.random.choice(arange(n), num_paths, replace=False)`
is modelled by an oracle list `draw` (of `num_paths` distinct indices
below `n`; its distribution — uniform over combinations — is the
documented contract of `choice` with `replace=False`). -/

/-- The mask produced by `choose_rand` for one traffic class with `n`
candidate paths, where `draw` is the list of indices returned by
`choice`: if `n > num_paths`, all-ones with the drawn indices unmasked;
otherwise `unmask` clears the mask. -/
def choose_rand_mask (n : ℕ) (num_paths : ℕ) (draw : List ℕ) : List Bool :=
  if num_paths < n then set_vals (List.replicate n true) draw false
  else List.replicate n false

/-! ### Concrete instances used to evaluate the embeddings -/

/-- A concrete 4-node path (node count 4, no separate link resources). -/
def exPath : Path := ⟨[0, 1, 2, 3], []⟩

/-- A concrete topology: node `0` carries 2 units of resource `0` and 3
units of resource `1`; everything else is empty. -/
def exTopo : Topology :=
  ⟨fun el r =>
    match el, r with
    | Sum.inl 0, 0 => 2
    | Sum.inl 0, 1 => 3
    | _, _ => 0⟩

/-- A concrete draw oracle for the `random` replace mode: the first call
returns `[1]`, every later call returns `[0]`. -/
def exDraws : ℕ → List ℕ := fun t => if t = 0 then [1] else [0]

/-- A concrete solver tensor row family: row `0` is a zero decision
variable, every other row holds a decision variable carrying flow. -/
def exXps : ℕ → List FlowVar := fun ii =>
  if ii = 0 then [FlowVar.decision 0] else [FlowVar.decision 1]

/-! ## Theorems -/

/-- Pointwise description of `List.set`. -/
theorem getD_set (mask : List Bool) (j i : ℕ) (v d : Bool) :
    (mask.set j v).getD i d = if j = i ∧ j < mask.length then v else mask.getD i d := by
  simp only [List.getD_eq_getElem?_getD, List.getElem?_set]
  by_cases h1 : j = i
  · subst h1
    by_cases h2 : j < mask.length
    · simp [h2]
    · simp [h2, List.getElem?_eq_none (le_of_not_lt h2)]
  · simp [h1]

/-- `set_vals` preserves the mask length. -/
theorem set_vals_length (v : Bool) :
    ∀ (ids : List ℕ) (mask : List Bool), (set_vals mask ids v).length = mask.length
  | [], _ => rfl
  | j :: ids, mask => by
    have ih := set_vals_length v ids (mask.set j v)
    simpa [set_vals, List.length_set] using ih

/-- Pointwise description of the fancy assignment `mask[ids] = v`. -/
theorem set_vals_getD (v d : Bool) :
    ∀ (ids : List ℕ) (mask : List Bool) (i : ℕ),
      (set_vals mask ids v).getD i d =
        if i ∈ ids ∧ i < mask.length then v else mask.getD i d
  | [], mask, i => by simp [set_vals]
  | j :: ids, mask, i => by
    have ih := set_vals_getD v d ids (mask.set j v) i
    have hstep : set_vals mask (j :: ids) v = set_vals (mask.set j v) ids v := rfl
    rw [hstep, ih, List.length_set, getD_set]
    by_cases hij : j = i
    · subst hij
      by_cases hlt : j < mask.length <;> by_cases hmem : j ∈ ids <;>
        simp [hlt, hmem, List.mem_cons]
    · by_cases hlt : i < mask.length <;> by_cases hmem : i ∈ ids <;>
        simp [hlt, hmem, List.mem_cons, hij, Ne.symm hij]

/-- Counting the members of a duplicate-free, bounded index list inside
`range n` recovers its length. -/
theorem countP_mem_range (n : ℕ) (draw : List ℕ) (hnd : draw.Nodup)
    (hb : ∀ j ∈ draw, j < n) :
    (List.range n).countP (fun i => decide (i ∈ draw)) = draw.length := by
  rw [List.countP_eq_length_filter]
  have hperm :
      List.Perm ((List.range n).filter (fun i => decide (i ∈ draw))) draw := by
    rw [List.perm_ext_iff_of_nodup (List.Nodup.filter _ (List.nodup_range n)) hnd]
    intro a
    simp only [List.mem_filter, List.mem_range, decide_eq_true_eq]
    exact ⟨fun h => h.2, fun h => ⟨hb a h, h⟩⟩
  exact hperm.length_eq

/-- Pointwise description of the `k_shortest_paths` mask: for an
in-range candidate `i`, visibility is membership in the first
`min(k, n)` entries of the argsort output `ind`. -/
theorem k_shortest_mask_getD (lens : List ℕ) (num_paths : ℕ) (ind : List ℕ)
    (i : ℕ) (hi : i < lens.length) :
    (k_shortest_mask lens num_paths ind).getD i true = false ↔
      i ∈ ind.take (min num_paths lens.length) := by
  rw [k_shortest_mask, set_vals_getD, List.length_replicate]
  have hrep : (List.replicate lens.length true).getD i true = true := by
    simp [List.getD_eq_getElem?_getD, List.getElem?_replicate, hi]
  by_cases hmem : i ∈ ind.take (min num_paths lens.length)
  · simp [hmem, hi]
  · simp [hmem, hrep]

/-- Counterexample to C4 as stated: with two equal-length candidates
(`lens = [2, 2]`) and `k = 1`, the permutation `[1, 0]` is a valid
output of `numpy.argsort` under its documented contract (the default
quicksort is not stable, so equal keys may come in either order), yet
the resulting mask is `[1, 0]`: candidate `0` — the unique candidate
preceded by fewer than `min(k, n) = 1` others in the
(length, original index) order, i.e. the one the claim requires to be
visible — is masked, while candidate `1`, which the claim excludes, is
the visible one. -/
theorem k_shortest_paths_tiebreak_counterexample :
    is_argsort_of [2, 2] [1, 0] ∧
    k_shortest_mask [2, 2] 1 [1, 0] = [true, false] ∧
    rank [2, 2] 0 < min 1 2 ∧
    ¬ rank [2, 2] 1 < min 1 2 := by
  refine ⟨⟨by decide, by decide⟩, by decide, by decide, by decide⟩

/-- C4 (amended): after `k_shortest_paths`, for every index permutation
`ind` that `numpy.argsort(lens)` may return (its documented contract:
a permutation of `range n` along which the lengths are non-decreasing;
the relative order of equal lengths is implementation-defined, not
necessarily by smaller original index), the mask keeps its length,
exactly `min(k, n)` candidates are visible — precisely those in the
first `min(k, n)` entries of `ind` — every visible candidate's length
is at most every masked candidate's length, and every other candidate
is masked. -/
theorem k_shortest_paths_visible_spec (lens : List ℕ) (num_paths : ℕ)
    (ind : List ℕ) (h : is_argsort_of lens ind) :
    (k_shortest_mask lens num_paths ind).length = lens.length ∧
    (List.range lens.length).countP
        (fun i => (k_shortest_mask lens num_paths ind).getD i true == false)
      = min num_paths lens.length ∧
    (∀ i, i < lens.length →
      ((k_shortest_mask lens num_paths ind).getD i true = false ↔
        i ∈ ind.take (min num_paths lens.length))) ∧
    (∀ i j, i < lens.length → j < lens.length →
      (k_shortest_mask lens num_paths ind).getD i true = false →
      (k_shortest_mask lens num_paths ind).getD j true = true →
      lens.getD i 0 ≤ lens.getD j 0) := by
  obtain ⟨hperm, hsorted⟩ := h
  have hlen_ind : ind.length = lens.length :=
    hperm.length_eq.trans (List.length_range _)
  have hnodup : ind.Nodup := (hperm.nodup_iff).mpr (List.nodup_range _)
  have hmem_ind : ∀ x, x ∈ ind ↔ x < lens.length := by
    intro x
    rw [hperm.mem_iff, List.mem_range]
  refine ⟨?_, ?_, ?_, ?_⟩
  · rw [k_shortest_mask, set_vals_length, List.length_replicate]
  · have htake_nodup : (ind.take (min num_paths lens.length)).Nodup :=
      List.Nodup.sublist (List.take_sublist _ ind) hnodup
    have htake_bound :
        ∀ x ∈ ind.take (min num_paths lens.length), x < lens.length := by
      intro x hx
      exact (hmem_ind x).mp ((List.take_sublist _ ind).mem hx)
    have hcong : (List.range lens.length).countP
        (fun i => (k_shortest_mask lens num_paths ind).getD i true == false) =
        (List.range lens.length).countP
          (fun i => decide (i ∈ ind.take (min num_paths lens.length))) := by
      apply List.countP_congr
      intro x hx
      have hxlt := List.mem_range.mp hx
      simp only [beq_iff_eq, decide_eq_true_eq]
      exact k_shortest_mask_getD lens num_paths ind x hxlt
    rw [hcong,
      countP_mem_range lens.length _ htake_nodup htake_bound,
      List.length_take, hlen_ind]
    omega
  · intro i hi
    exact k_shortest_mask_getD lens num_paths ind i hi
  · intro i j hi hj hvis hmask
    have hin : i ∈ ind.take (min num_paths lens.length) :=
      (k_shortest_mask_getD lens num_paths ind i hi).mp hvis
    have hnotin : j ∉ ind.take (min num_paths lens.length) := by
      intro hc
      have hfalse := (k_shortest_mask_getD lens num_paths ind j hj).mpr hc
      rw [hfalse] at hmask
      exact Bool.noConfusion hmask
    obtain ⟨p, hpm, hpeq⟩ := List.mem_take_iff_getElem.mp hin
    have hjmem : j ∈ ind := (hmem_ind j).mpr hj
    obtain ⟨q, hq, hqeq⟩ := List.mem_iff_getElem.mp hjmem
    have hq_ge : min num_paths lens.length ≤ q := by
      by_contra hq_lt
      push_neg at hq_lt
      exact hnotin (List.mem_take_iff_getElem.mpr ⟨q, lt_min hq_lt hq, hqeq⟩)
    have hp_lt : p < min num_paths lens.length :=
      lt_of_lt_of_le hpm (min_le_left _ _)
    have hp_ind : p < ind.length := lt_of_lt_of_le hpm (min_le_right _ _)
    have hrel := List.pairwise_iff_getElem.mp hsorted p q hp_ind hq
      (lt_of_lt_of_le hp_lt hq_ge)
    rw [hpeq, hqeq] at hrel
    exact hrel

/-- Witness for `k_shortest_paths_visible_spec` at the length list
`[3, 2, 2]` with `k = 2` and the valid (tie-reversed) argsort output
`[2, 1, 0]`. -/
theorem k_shortest_paths_visible_spec_witness :
    is_argsort_of [3, 2, 2] [2, 1, 0] ∧
    ((k_shortest_mask [3, 2, 2] 2 [2, 1, 0]).length =
        ([3, 2, 2] : List ℕ).length ∧
     (List.range ([3, 2, 2] : List ℕ).length).countP
         (fun i => (k_shortest_mask [3, 2, 2] 2 [2, 1, 0]).getD i true == false)
       = min 2 ([3, 2, 2] : List ℕ).length ∧
     (∀ i, i < ([3, 2, 2] : List ℕ).length →
       ((k_shortest_mask [3, 2, 2] 2 [2, 1, 0]).getD i true = false ↔
         i ∈ ([2, 1, 0] : List ℕ).take (min 2 ([3, 2, 2] : List ℕ).length))) ∧
     (∀ i j, i < ([3, 2, 2] : List ℕ).length → j < ([3, 2, 2] : List ℕ).length →
       (k_shortest_mask [3, 2, 2] 2 [2, 1, 0]).getD i true = false →
       (k_shortest_mask [3, 2, 2] 2 [2, 1, 0]).getD j true = true →
       ([3, 2, 2] : List ℕ).getD i 0 ≤ ([3, 2, 2] : List ℕ).getD j 0)) :=
  ⟨⟨by decide, by decide⟩,
   k_shortest_paths_visible_spec [3, 2, 2] 2 [2, 1, 0] ⟨by decide, by decide⟩⟩

/-- C5: after `choose_rand`, for a traffic class with `n` candidates and
a drawn index list `draw` (distinct, of size `k`, in range — the
contract of `numpy.random.choice(arange(n), k, replace=False)`): the
mask has length `n`; when `n > k` exactly `k` entries are `0`, an entry
is `0` iff its index was drawn, and the mask determines the drawn
combination (so a uniform draw over combinations induces a uniform
distribution on masks); when `n ≤ k` the mask is cleared. -/
theorem choose_rand_mask_spec (n num_paths : ℕ) (draw : List ℕ)
    (hnd : draw.Nodup) (hlen : draw.length = num_paths)
    (hb : ∀ j ∈ draw, j < n) :
    (choose_rand_mask n num_paths draw).length = n ∧
    (num_paths < n →
      ((List.range n).countP
          (fun i => (choose_rand_mask n num_paths draw).getD i true == false) =
            num_paths ∧
       (∀ i, i < n →
         ((choose_rand_mask n num_paths draw).getD i true = false ↔ i ∈ draw)) ∧
       (∀ draw₂ : List ℕ, (∀ j ∈ draw₂, j < n) →
         choose_rand_mask n num_paths draw = choose_rand_mask n num_paths draw₂ →
         ∀ j, j ∈ draw ↔ j ∈ draw₂))) ∧
    (n ≤ num_paths → choose_rand_mask n num_paths draw = List.replicate n false) := by
  have hpoint : ∀ (dr : List ℕ) (i : ℕ), i < n →
      ((set_vals (List.replicate n true) dr false).getD i true = false ↔ i ∈ dr) := by
    intro dr i hi
    rw [set_vals_getD, List.length_replicate]
    have hrep : (List.replicate n true).getD i true = true := by
      simp [List.getD_eq_getElem?_getD, List.getElem?_replicate, hi]
    by_cases hmem : i ∈ dr
    · simp [hmem, hi]
    · simp [hmem, hrep]
  refine ⟨?_, ?_, ?_⟩
  · unfold choose_rand_mask
    by_cases h : num_paths < n
    · simp [h, set_vals_length, List.length_replicate]
    · simp [h, List.length_replicate]
  · intro hlt
    have hmask : choose_rand_mask n num_paths draw =
        set_vals (List.replicate n true) draw false := by
      unfold choose_rand_mask
      simp [hlt]
    refine ⟨?_, ?_, ?_⟩
    · rw [hmask]
      have := List.countP_congr
        (p := fun i => (set_vals (List.replicate n true) draw false).getD i true == false)
        (q := fun i => decide (i ∈ draw)) (l := List.range n) ?_
      · rw [this, countP_mem_range n draw hnd hb, hlen]
      · intro x hx
        have hxlt := List.mem_range.mp hx
        simp only [beq_iff_eq, decide_eq_true_eq]
        exact hpoint draw x hxlt
    · intro i hi
      rw [hmask]
      exact hpoint draw i hi
    · intro draw₂ hb₂ heq j
      have hmask₂ : choose_rand_mask n num_paths draw₂ =
          set_vals (List.replicate n true) draw₂ false := by
        unfold choose_rand_mask
        simp [hlt]
      constructor
      · intro hj
        have hjlt := hb j hj
        have h1 := (hpoint draw j hjlt).mpr hj
        rw [← hmask, heq, hmask₂] at h1
        exact (hpoint draw₂ j hjlt).mp h1
      · intro hj
        have hjlt := hb₂ j hj
        have h1 := (hpoint draw₂ j hjlt).mpr hj
        rw [← hmask₂, ← heq, hmask] at h1
        exact (hpoint draw j hjlt).mp h1
  · intro hle
    unfold choose_rand_mask
    simp [Nat.not_lt.mpr hle]

/-- Witness for `choose_rand_mask_spec` with `n = 3`, `k = 2` and the
draw `[2, 0]`. -/
theorem choose_rand_mask_spec_witness :
    (([2, 0] : List ℕ).Nodup ∧ ([2, 0] : List ℕ).length = 2 ∧
      (∀ j ∈ ([2, 0] : List ℕ), j < 3)) ∧
    ((choose_rand_mask 3 2 [2, 0]).length = 3 ∧
     (2 < 3 →
       ((List.range 3).countP
           (fun i => (choose_rand_mask 3 2 [2, 0]).getD i true == false) = 2 ∧
        (∀ i, i < 3 →
          ((choose_rand_mask 3 2 [2, 0]).getD i true = false ↔ i ∈ ([2, 0] : List ℕ))) ∧
        (∀ draw₂ : List ℕ, (∀ j ∈ draw₂, j < 3) →
          choose_rand_mask 3 2 [2, 0] = choose_rand_mask 3 2 draw₂ →
          ∀ j, j ∈ ([2, 0] : List ℕ) ↔ j ∈ draw₂))) ∧
     (3 ≤ 2 → choose_rand_mask 3 2 [2, 0] = List.replicate 3 false)) :=
  ⟨⟨by decide, by decide, by decide⟩,
   choose_rand_mask_spec 3 2 [2, 0] (by decide) (by decide) (by decide)⟩

/-- The `no_flow` loop preserves the mask length. -/
theorem expel_no_flow_go_length (xps : ℕ → List FlowVar) :
    ∀ (mask : List Bool) (ii : ℕ),
      (expel_no_flow_go xps ii mask).length = mask.length
  | [], _ => rfl
  | m :: rest, ii => by
    cases m <;>
      simp [expel_no_flow_go, expel_no_flow_go_length xps rest]

/-- Pointwise description of the `no_flow` loop: a masked entry stays
masked, and a visible entry at index `i` becomes the no-flow test of
the `xps` row at the running counter, which equals the offset `ii` plus
the number of visible entries before `i`. -/
theorem expel_no_flow_go_getD (xps : ℕ → List FlowVar) :
    ∀ (mask : List Bool) (ii i : ℕ), i < mask.length →
      (expel_no_flow_go xps ii mask).getD i true =
        if mask.getD i true then true
        else noflow (xps (ii + (mask.take i).count false))
  | [], _, i, h => by simp at h
  | m :: rest, ii, 0, _ => by
    cases m <;> simp [expel_no_flow_go]
  | m :: rest, ii, i + 1, h => by
    have hlt : i < rest.length := by
      simpa using h
    cases m
    · have ih := expel_no_flow_go_getD xps rest (ii + 1) i hlt
      have harith : ii + 1 + (rest.take i).count false =
          ii + ((rest.take i).count false + 1) := by omega
      have hlhs : (expel_no_flow_go xps ii (false :: rest)).getD (i + 1) true =
          (expel_no_flow_go xps (ii + 1) rest).getD i true := by
        simp [expel_no_flow_go]
      have hget : (false :: rest).getD (i + 1) true = rest.getD i true := rfl
      have hcount : ((false :: rest).take (i + 1)).count false =
          (rest.take i).count false + 1 := by
        simp [List.take_succ_cons, List.count_cons]
      rw [hlhs, ih, hget, hcount, harith]
    · have ih := expel_no_flow_go_getD xps rest ii i hlt
      have hlhs : (expel_no_flow_go xps ii (true :: rest)).getD (i + 1) true =
          (expel_no_flow_go xps ii rest).getD i true := by
        simp [expel_no_flow_go]
      have hget : (true :: rest).getD (i + 1) true = rest.getD i true := rfl
      have hcount : ((true :: rest).take (i + 1)).count false =
          (rest.take i).count false := by
        simp [List.take_succ_cons, List.count_cons]
      rw [hlhs, ih, hget, hcount]

/-- C6: in `_expel` with mode `no_flow`, entries already masked are left
unchanged, and a currently-visible entry at index `i` — the `j`-th
visible path, where `j = vis_rank mask i` counts visible entries
densely — becomes masked iff the row `xps[tcid, j, :]` passes the
no-flow test (all its decision variables are zero across all epochs). -/
theorem expel_no_flow_spec (xps : ℕ → List FlowVar) (mask : List Bool)
    (i : ℕ) (hi : i < mask.length) :
    (expel_no_flow xps mask).length = mask.length ∧
    (mask.getD i true = true → (expel_no_flow xps mask).getD i true = true) ∧
    (mask.getD i true = false →
      ((expel_no_flow xps mask).getD i true = true ↔
        noflow (xps (vis_rank mask i)) = true)) := by
  refine ⟨expel_no_flow_go_length xps mask 0, ?_, ?_⟩
  · intro hmasked
    rw [expel_no_flow, expel_no_flow_go_getD xps mask 0 i hi, hmasked]
    simp
  · intro hvis
    rw [expel_no_flow, expel_no_flow_go_getD xps mask 0 i hi, hvis]
    simp [vis_rank]

/-- Witness for `expel_no_flow_spec`: mask `[1, 0, 0]` with a zero-flow
row for the first visible path and a carrying row for the second. -/
theorem expel_no_flow_spec_witness :
    1 < ([true, false, false] : List Bool).length ∧
    ((expel_no_flow exXps [true, false, false]).length =
        ([true, false, false] : List Bool).length ∧
     (([true, false, false] : List Bool).getD 1 true = true →
       (expel_no_flow exXps [true, false, false]).getD 1 true = true) ∧
     (([true, false, false] : List Bool).getD 1 true = false →
       ((expel_no_flow exXps [true, false, false]).getD 1 true = true ↔
         noflow (exXps (vis_rank [true, false, false] 1)) = true))) :=
  ⟨by decide, expel_no_flow_spec exXps [true, false, false] 1 (by decide)⟩

/-- Shifting the accumulator of an additive fold shifts the result. -/
theorem foldl_add_shift (f : ℕ × ℚ → ℚ) :
    ∀ (l : List (ℕ × ℚ)) (a b : ℚ),
      l.foldl (fun s x => s + f x) (a + b) =
        l.foldl (fun s x => s + f x) a + b
  | [], _, _ => rfl
  | x :: l, a, b => by
    have ih := foldl_add_shift f l (a + f x) b
    have harg : a + b + f x = a + f x + b := by ring
    simp only [List.foldl_cons]
    rw [harg, ih]

/-- An additive fold that also subtracts a constant at every step
subtracts it once per element. -/
theorem foldl_sub_const (f : ℕ × ℚ → ℚ) (c : ℚ) :
    ∀ (l : List (ℕ × ℚ)) (a : ℚ),
      l.foldl (fun s x => s + f x - c) a =
        l.foldl (fun s x => s + f x) a - l.length * c
  | [], a => by simp
  | x :: l, a => by
    have ih := foldl_sub_const f c l (a + f x - c)
    simp only [List.foldl_cons, List.length_cons]
    rw [ih]
    have hshift : a + f x - c = a + f x + (-c) := by ring
    rw [hshift, foldl_add_shift f l (a + f x) (-c)]
    push_cast
    ring

/-- C3 (amended): `compute_score` subtracts the length penalty
`len(p)/d` once per resource of the weight map, not once in total:
it equals the weighted normalized resource maxima sum minus
`|weights| * len(p)/d`. -/
theorem compute_score_per_resource_penalty (p : Path) (t : Topology)
    (weights : List (ℕ × ℚ)) (norm : ℕ → ℚ) (d : ℚ) :
    compute_score p t weights norm d =
      (weights.foldl
        (fun score rw => score + res_max p t rw.1 / norm rw.1 * rw.2) 0)
        - (weights.length : ℚ) * ((p.len : ℚ) / d) :=
  foldl_sub_const (fun rw => res_max p t rw.1 / norm rw.1 * rw.2)
    ((p.len : ℚ) / d) weights 0

/-- Counterexample to C3 as stated: for the concrete 4-node path and
two unit-weight resources with unit normalization and diameter 2,
`compute_score` yields `1` while the spec formula (penalty subtracted
exactly once) yields `3`. -/
theorem compute_score_single_penalty_counterexample :
    compute_score exPath exTopo [(0, 1), (1, 1)] (fun _ => 1) 2 = 1 ∧
    spec_score exPath exTopo [(0, 1), (1, 1)] (fun _ => 1) 2 = 3 ∧
    (1 : ℚ) ≠ 3 := by
  refine ⟨?_, ?_, by norm_num⟩
  · simp [compute_score, res_max, qmax, Path.elems, Path.len, exPath, exTopo]
    norm_num
  · simp [spec_score, res_max, qmax, Path.elems, Path.len, exPath, exTopo]
    norm_num

/-- C1: the phase-0 feasibility resampling step of `select_sa` always
leaves `explored[tc]` with a bitwise-equal duplicate: `_expel` mutates
`explored[tc][-1]` in place and returns the same array, which is then
appended, so the last two entries are equal — refuting the invariant
that masks in `explored[tc]` are pairwise distinct. -/
theorem sa_phase0_explored_duplicate (explored : List (List Bool))
    (newmask : List Bool) :
    ∃ i j, i < j ∧ j < (sa_phase0_step explored newmask).length ∧
      (sa_phase0_step explored newmask).getD i [] =
        (sa_phase0_step explored newmask).getD j [] := by
  refine ⟨explored.dropLast.length, explored.dropLast.length + 1,
    Nat.lt_succ_self _, ?_, ?_⟩
  · rw [sa_phase0_step, List.length_append]
    simp
  · rw [sa_phase0_step,
      List.getD_append_right _ _ _ _ (le_refl _),
      List.getD_append_right _ _ _ _ (Nat.le_succ_of_le (le_refl _))]
    simp

/-- C2: evaluating `_replace` in `random` mode on two candidate paths
with `num_paths = 1`, explored set `{[0,1]}` and draw sequence
`[1], [0], [0], …`: the first drawn candidate gives the fresh mask
`[1,0]` (not in the explored set), yet the loop redraws — its guard is
`while not _in(mask, explored)` — and stops on `[0,1]`, a mask that is
already explored.  This contradicts the documented duplicate-avoidance
contract (retry only while the mask is already explored, as the
`pathtree` branch does). -/
theorem replace_random_inverted_guard_eval :
    replace_random [[false, true]] [true, true] 1 exDraws = [false, true] ∧
    mask_in [false, true] [[false, true]] = true ∧
    mask_in [true, false] [[false, true]] = false := by
  refine ⟨?_, by decide, by decide⟩
  decide

/-- C7: the simulated-annealing acceptance probability is the
hill-climbing form `1 if old ≤ new else 0`, independent of the
temperature argument. -/
theorem saprob_hill_climbing :
    ∀ oldo newo t t' : ℚ,
      saprob oldo newo t = (if oldo ≤ newo then 1 else 0) ∧
      saprob oldo newo t = saprob oldo newo t' :=
  fun _ _ _ _ => ⟨rfl, rfl⟩

/-- C8: `select_ilp` imposes — via `cap_num_paths`, before `solve` — a
global chosen-path cap, and the cap value occurring in its solver trace
is exactly `(num_nodes − 1)² * num_paths`; for a 3-node topology with
`num_paths = 2` the cap `8` occurs. -/
theorem select_ilp_cap_value :
    ∀ num_nodes num_paths : ℕ,
      (∀ c, OptEvent.capNumPaths c ∈ select_ilp_events num_nodes num_paths ↔
        c = ((num_nodes : ℤ) - 1) ^ 2 * num_paths) ∧
      (select_ilp_events num_nodes num_paths).getD 1 OptEvent.compose =
        OptEvent.capNumPaths (((num_nodes : ℤ) - 1) ^ 2 * num_paths) ∧
      (select_ilp_events num_nodes num_paths).getD 2 OptEvent.compose =
        OptEvent.solve ∧
      OptEvent.capNumPaths 8 ∈ select_ilp_events 3 2 := by
  intro num_nodes num_paths
  refine ⟨?_, rfl, rfl, by decide⟩
  intro c
  simp [select_ilp_events]

/-- Counterexample to C9 as stated: `cluster_tcs` with the unknown
method `'spectral'` raises `ValueError`, not the invalid-configuration
error of the error taxonomy (`InvalidConfigException`). -/
theorem cluster_tcs_unknown_method_counterexample :
    cluster_tcs_err "spectral" =
      some (PyErr.valueError "Unsupported clustering method spectral") ∧
    ∀ s, cluster_tcs_err "spectral" ≠ some (PyErr.invalidConfig s) := by
  constructor
  · rfl
  · intro s h
    rw [show cluster_tcs_err "spectral" =
      some (PyErr.valueError "Unsupported clustering method spectral") from rfl] at h
    exact absurd (Option.some.inj h) (by simp)

/-- C9 (amended): `cluster_tcs` with a method other than `'kmeans'` and
`'agg'` raises `ValueError` (with the unsupported-method message),
reported to the caller with no retry. -/
theorem cluster_tcs_unknown_method_value_error (method : String)
    (h1 : method ≠ "kmeans") (h2 : method ≠ "agg") :
    cluster_tcs_err method =
      some (PyErr.valueError ("Unsupported clustering method " ++ method)) := by
  simp [cluster_tcs_err, h1, h2]

/-- Witness for `cluster_tcs_unknown_method_value_error` at the method
string `'spectral'`. -/
theorem cluster_tcs_unknown_method_value_error_witness :
    (("spectral" : String) ≠ "kmeans" ∧ ("spectral" : String) ≠ "agg") ∧
    cluster_tcs_err "spectral" =
      some (PyErr.valueError ("Unsupported clustering method " ++ "spectral")) :=
  ⟨⟨by decide, by decide⟩,
   cluster_tcs_unknown_method_value_error "spectral" (by decide) (by decide)⟩

/-- C10: when the `select_iterative` loop body never executes — because
`max_iter ≤ 0`, or `epsilon ≥ 1024` (the initial `diff`), or the
maximum candidate count is `≤ 5` (the initial `k`) — the function fails
by referencing the never-assigned local `opt` (an unbound-name error)
instead of returning a result or raising the unsolvable error. -/
theorem select_iterative_unbound_opt (max_iter : ℤ) (epsilon : ℚ) (mp : ℕ)
    (solver : ℕ → Option ℚ)
    (h : max_iter ≤ 0 ∨ (1024 : ℚ) ≤ epsilon ∨ mp ≤ 5) :
    select_iterative_run SortMode.len max_iter epsilon mp solver =
      Except.error (PyErr.unboundLocal "opt") := by
  have hloop :
      iter_loop solver max_iter epsilon mp max_iter.toNat 0 1024 0 5 none = none := by
    rcases Nat.eq_zero_or_pos max_iter.toNat with hz | hpos
    · rw [hz]
      rfl
    · obtain ⟨f, hf⟩ : ∃ f, max_iter.toNat = f + 1 :=
        ⟨max_iter.toNat - 1, by omega⟩
      rw [hf]
      have hguard : ¬ ((0 : ℤ) < max_iter ∧ epsilon < 1024 ∧ 5 < mp) := by
        rcases h with h | h | h
        · intro hc; exact absurd hc.1 (not_lt.mpr h)
        · intro hc; exact absurd hc.2.1 (not_lt.mpr h)
        · intro hc; exact absurd hc.2.2 (not_lt.mpr h)
      simp [iter_loop, hguard]
  have hrun : select_iterative_run SortMode.len max_iter epsilon mp solver =
      (match iter_loop solver max_iter epsilon mp max_iter.toNat 0 1024 0 5 none with
        | none => Except.error (PyErr.unboundLocal "opt")
        | some none => Except.error (PyErr.solException "No solution exists")
        | some (some obj) => Except.ok obj) := rfl
  rw [hrun, hloop]

/-- Witness for `select_iterative_unbound_opt` with `max_iter = 5`,
`epsilon = 2000`, `mp = 10` and an always-unsolved solver. -/
theorem select_iterative_unbound_opt_witness :
    ((5 : ℤ) ≤ 0 ∨ (1024 : ℚ) ≤ 2000 ∨ (10 : ℕ) ≤ 5) ∧
    select_iterative_run SortMode.len 5 2000 10 (fun _ => none) =
      Except.error (PyErr.unboundLocal "opt") :=
  ⟨Or.inr (Or.inl (by norm_num)),
   select_iterative_unbound_opt 5 2000 10 (fun _ => none)
     (Or.inr (Or.inl (by norm_num)))⟩

end Sol
